import Mathlib

/-!
Shallow embedding of the Flask media-gallery backend (app.py).

The server state is the media directory, modelled as an optional list of
filenames: `none` means the directory does not exist (os.listdir raises
FileNotFoundError), `some entries` means it exists and holds those entries.

Library functions used by the source (werkzeug secure_filename, posix
os.path.join, the Flask content-length gate) are embedded from their
documented behaviour; each such definition says so in its doc comment.
-/

/-- ALLOWED_EXTENSIONS from app.py line 15 (a Python set; membership only
is used, so a list is an adequate embedding). -/
def ALLOWED_EXTENSIONS : List String :=
  ["mp4", "avi", "mov", "wmv", "flv", "webm", "jpg", "jpeg", "png", "gif"]

/-- VIDEO_DIR = os.path.join of the literals static and videos (line 11). -/
def VIDEO_DIR : String := "static/videos"

/-- UPLOAD_FOLDER = os.path.join of the same literals (line 12); also the
value of the UPLOAD_FOLDER config key (line 18). -/
def UPLOAD_FOLDER : String := "static/videos"

/-- MAX_CONTENT_LENGTH config, 100 MiB (line 19). -/
def MAX_CONTENT_LENGTH : Nat := 100 * 1024 * 1024

/-- The characters after the last dot of a list of characters; the suffix
is the whole list when no dot occurs.  This is the list-level meaning of
the Python expression that splits a filename from the right at the first
dot and keeps the second piece. -/
def afterLastDot (cs : List Char) : List Char :=
  (cs.reverse.takeWhile (fun c => c ≠ '.')).reverse

/-- ASCII lowercasing of one character, as the Python lower method acts on
ASCII text.  Outside ASCII the two differ on a handful of code points, none
of which can lowercase onto the ASCII whitelist words, so membership tests
against ALLOWED_EXTENSIONS agree. -/
def lowerChar (c : Char) : Char :=
  if 65 ≤ c.toNat ∧ c.toNat ≤ 90 then Char.ofNat (c.toNat + 32) else c

/-- allowed_file (app.py lines 21-22): the filename contains a dot and the
lowercased text after its last dot is a whitelisted extension.  The Python
guard short-circuits, so the rsplit piece is only consulted when a dot is
present; afterLastDot is total, and under the contains-dot guard it equals
that rsplit piece. -/
def allowed_file (filename : String) : Bool :=
  filename.toList.contains '.' &&
    ALLOWED_EXTENSIONS.contains (String.mk ((afterLastDot filename.toList).map lowerChar))

/-- The characters kept by the werkzeug sanitising regex: ASCII letters,
digits, underscore, dot and hyphen. -/
def keepChar (c : Char) : Bool :=
  c.isAlpha || c.isDigit || c = '_' || c = '.' || c = '-'

/-- Characters stripped from both ends by the final strip step of
secure_filename: dot and underscore. -/
def isStripChar (c : Char) : Bool :=
  c = '.' || c = '_'

/-- Split a character list into maximal whitespace-free words, discarding
the whitespace, like the Python str.split() with no arguments.  The
accumulator holds the current word reversed. -/
def splitWSAux : List Char → List Char → List (List Char)
  | [], acc => if acc.isEmpty then [] else [acc.reverse]
  | c :: cs, acc =>
    if c.isWhitespace then
      if acc.isEmpty then splitWSAux cs [] else acc.reverse :: splitWSAux cs []
    else
      splitWSAux cs (c :: acc)

def splitWS (cs : List Char) : List (List Char) := splitWSAux cs []

/-- Strip leading and trailing dots and underscores, like the Python
strip call with those two characters. -/
def stripEnds (cs : List Char) : List Char :=
  ((cs.dropWhile isStripChar).reverse.dropWhile isStripChar).reverse

/-- Embedded from the documented behaviour of werkzeug secure_filename on
a posix host, for ASCII filenames (the initial NFKD-normalise and
ASCII-encode step is the identity there): replace the path separator by a
space, split on whitespace and rejoin with underscores, delete every
character outside the safe class, then strip dots and underscores from
both ends. -/
def secure_filename (filename : String) : String :=
  String.mk (stripEnds
    ((List.intercalate ['_']
      (splitWS (filename.toList.map (fun c => if c = '/' then ' ' else c)))).filter keepChar))

/-- The stored filename built at app.py line 68: the random token, an
underscore, and the sanitised original filename. -/
def stored_filename (token : String) (fname : String) : String :=
  token ++ "_" ++ secure_filename fname

/-- Embedded from posix os.path.join on two components: an absolute second
component replaces the first; otherwise the parts are joined, inserting a
slash unless the first already ends in one or is empty. -/
def os_path_join (a b : String) : String :=
  if b.toList.head? = some '/' then b
  else if a = "" ∨ a.toList.getLast? = some '/' then a ++ b
  else a ++ "/" ++ b

/-- The on-disk path the upload handler writes to (app.py line 69). -/
def upload_path (token : String) (fname : String) : String :=
  os_path_join UPLOAD_FOLDER (stored_filename token fname)

/-- The filenames the listing routes compute (app.py lines 34 and 88):
filter the directory entries through allowed_file and sort them.  Python
sorted on strings is plain lexicographic ascending by code point, which is
the Mathlib linear order on String; on a multiset of strings the sorted
list is unique, so stable insertion sort is an exact embedding. -/
def video_files (entries : List String) : List String :=
  List.insertionSort (· ≤ ·) (entries.filter (fun f => allowed_file f))

/-- url_for of the static endpoint with filename videos/… resolves to the
static path prefix followed by the filename (app.py lines 40 and 89). -/
def video_url (f : String) : String :=
  "/static/videos/" ++ f

/-- Result of the index route: either a rendered page carrying the media
URLs, or the plain-text error body. -/
inductive PageResult where
  | page (urls : List String)
  | error (msg : String)
deriving DecidableEq

/-- index (app.py lines 24-50): list, filter, sort, map to URLs and render;
a missing directory yields the fixed error body with HTTP 500. -/
def index (dir : Option (List String)) : PageResult × Nat :=
  match dir with
  | some entries => (PageResult.page ((video_files entries).map video_url), 200)
  | none =>
    (PageResult.error ("Error: Video directory not found. Please create it and add videos."),
     500)

/-- get_videos (app.py lines 82-92): the JSON body is the URL list, empty
when the directory is missing; jsonify always answers with HTTP 200. -/
def get_videos (dir : Option (List String)) : List String × Nat :=
  match dir with
  | some entries => ((video_files entries).map video_url, 200)
  | none => ([], 200)

/-- A multipart upload request as the handler sees it: no file field, or a
file field carrying a client-supplied filename (possibly empty). -/
structure UploadRequest where
  fileField : Option String
deriving DecidableEq

/-- The JSON body and HTTP status produced by the upload route; jsonify
always sends HTTP 200. -/
structure JsonResponse where
  success : Bool
  message : String
  status : Nat
deriving DecidableEq

/-- upload_file (app.py lines 52-80).  The random uuid4 token and the
outcome of the disk write (none for success, some message for the raised
exception text) enter as parameters, since they come from the
environment.  A FileStorage object is truthy exactly when its filename is
non-empty, so after the empty-filename check the Python conjunction of
file and allowed_file reduces to allowed_file.  makedirs with exist_ok
creates the directory before the write is attempted, so even a failed
write leaves the directory existing. -/
def upload_file (req : UploadRequest) (token : String) (writeError : Option String)
    (dir : Option (List String)) : JsonResponse × Option (List String) :=
  match req.fileField with
  | none => (⟨false, "No file selected", 200⟩, dir)
  | some fname =>
    if fname = "" then (⟨false, "No file selected", 200⟩, dir)
    else if allowed_file fname then
      match writeError with
      | none =>
        (⟨true, "File uploaded successfully!", 200⟩,
         some (stored_filename token fname :: dir.getD []))
      | some e =>
        (⟨false, "Upload failed: " ++ e, 200⟩, some (dir.getD []))
    else
      (⟨false,
        "Invalid file type. Please upload videos (mp4, avi, mov, etc.) or images (jpg, png, etc.)",
        200⟩, dir)

/-- Result of a POST to the upload route as seen by the client: either the
JSON body from the view function, or the 413 page the framework serves for
an oversized body. -/
inductive UploadHttpResult where
  | json (r : JsonResponse)
  | tooLarge
deriving DecidableEq

/-- Modelled from the spec: the HTTP layer (Flask, per the configured
MAX_CONTENT_LENGTH of line 19) rejects a request body larger than the cap
with a 413 oversized-payload error before the view function runs; only
smaller requests reach upload_file. -/
def handle_upload_request (contentLength : Nat) (req : UploadRequest) (token : String)
    (writeError : Option String) (dir : Option (List String)) :
    UploadHttpResult × Option (List String) :=
  if MAX_CONTENT_LENGTH < contentLength then
    (UploadHttpResult.tooLarge, dir)
  else
    let r := upload_file req token writeError dir
    (UploadHttpResult.json r.1, r.2)

/-! Helper lemmas. -/

theorem takeWhile_append_true {α : Type} (p : α → Bool) {l₁ : List α} (l₂ : List α) (c : α)
    (h : ∀ a ∈ l₁, p a = true) (hc : p c = false) :
    (l₁ ++ c :: l₂).takeWhile p = l₁ := by
  induction l₁ with
  | nil => simp [List.takeWhile_cons, hc]
  | cons a as ih =>
    have ha : p a = true := h a (List.mem_cons_self a as)
    simp [List.takeWhile_cons, ha, ih (fun x hx => h x (List.mem_cons_of_mem a hx))]

theorem takeWhile_append_stop {α : Type} (p : α → Bool) {l₁ : List α} (l₂ : List α)
    (h : ∃ x ∈ l₁, p x = false) :
    (l₁ ++ l₂).takeWhile p = l₁.takeWhile p := by
  induction l₁ with
  | nil =>
    obtain ⟨x, hx, _⟩ := h
    cases hx
  | cons a as ih =>
    by_cases hpa : p a = true
    · obtain ⟨x, hx, hpx⟩ := h
      rcases List.mem_cons.mp hx with rfl | hx2
      · rw [hpa] at hpx
        cases hpx
      · simp [List.takeWhile_cons, hpa, ih ⟨x, hx2, hpx⟩]
    · have hpa2 : p a = false := by simpa using hpa
      simp [List.takeWhile_cons, hpa2]

theorem afterLastDot_append (xs ext : List Char) (h : '.' ∉ ext) :
    afterLastDot (xs ++ '.' :: ext) = ext := by
  unfold afterLastDot
  rw [List.reverse_append, List.reverse_cons, List.append_assoc, List.singleton_append,
    takeWhile_append_true _ xs.reverse '.'
      (fun a ha => by
        simp only [decide_eq_true_eq]
        intro hae
        exact h (hae ▸ List.mem_reverse.mp ha))
      (by simp),
    List.reverse_reverse]

theorem afterLastDot_append_right (xs ys : List Char) (h : '.' ∈ ys) :
    afterLastDot (xs ++ ys) = afterLastDot ys := by
  unfold afterLastDot
  rw [List.reverse_append, takeWhile_append_stop _ xs.reverse
    ⟨'.', List.mem_reverse.mpr h, by simp⟩]

theorem mem_split_first {α : Type} {c : α} {l : List α} [DecidableEq α] (h : c ∈ l) :
    ∃ a b, l = a ++ c :: b ∧ c ∉ a := by
  induction l with
  | nil => cases h
  | cons x xs ih =>
    by_cases hx : x = c
    · exact ⟨[], xs, by rw [hx, List.nil_append], by simp⟩
    · rcases List.mem_cons.mp h with h1 | h2
      · exact absurd h1.symm hx
      · obtain ⟨a, b, rfl, hna⟩ := ih h2
        refine ⟨x :: a, b, rfl, ?_⟩
        intro hmem
        rcases List.mem_cons.mp hmem with h3 | h4
        · exact hx h3.symm
        · exact hna h4

theorem mem_split_last {α : Type} {c : α} {l : List α} [DecidableEq α] (h : c ∈ l) :
    ∃ a b, l = a ++ c :: b ∧ c ∉ b := by
  obtain ⟨a, b, hrev, hna⟩ := mem_split_first (l := l.reverse) (List.mem_reverse.mpr h)
  refine ⟨b.reverse, a.reverse, ?_, by simpa using hna⟩
  have h2 := congrArg List.reverse hrev
  simpa using h2

theorem head?_mem {α : Type} {l : List α} {a : α} (h : l.head? = some a) : a ∈ l := by
  cases l with
  | nil => cases h
  | cons x xs =>
    simp only [List.head?_cons, Option.some.injEq] at h
    exact h ▸ List.mem_cons_self x xs

/-- The extension-check specification as the spec words it: the filename
decomposes as a stem, a dot, and a dot-free extension whose lowercasing is
one of the whitelisted extensions. -/
def hasAllowedExtension (f : String) : Prop :=
  ∃ stem ext : List Char, f.toList = stem ++ '.' :: ext ∧ '.' ∉ ext ∧
    String.mk (ext.map lowerChar) ∈ ALLOWED_EXTENSIONS

theorem allowed_file_iff (f : String) :
    allowed_file f = true ↔ hasAllowedExtension f := by
  unfold allowed_file hasAllowedExtension
  rw [Bool.and_eq_true]
  constructor
  · rintro ⟨hc, hmem⟩
    have hdot : '.' ∈ f.toList := by simpa using hc
    obtain ⟨a, b, heq, hnb⟩ := mem_split_last hdot
    refine ⟨a, b, heq, hnb, ?_⟩
    have h2 : afterLastDot f.toList = b := by
      rw [heq]
      exact afterLastDot_append a b hnb
    rw [h2] at hmem
    simpa using hmem
  · rintro ⟨stem, ext, heq, hne, hmem⟩
    refine ⟨?_, ?_⟩
    · rw [heq]
      simp
    · rw [heq, afterLastDot_append stem ext hne]
      simpa using hmem

theorem mem_video_files (entries : List String) (f : String) :
    f ∈ video_files entries ↔ f ∈ entries ∧ allowed_file f = true := by
  unfold video_files
  rw [(List.perm_insertionSort _ _).mem_iff, List.mem_filter]

theorem stored_filename_toList (t f : String) :
    (stored_filename t f).toList = t.toList ++ '_' :: (secure_filename f).toList := by
  show (t ++ "_" ++ secure_filename f).data = t.data ++ '_' :: (secure_filename f).data
  rw [String.data_append, String.data_append]
  simp

theorem secure_filename_keepChar (f : String) :
    ∀ c ∈ (secure_filename f).toList, keepChar c = true := by
  intro c hc
  have h1 : c ∈ stripEnds
      ((List.intercalate ['_']
        (splitWS (f.toList.map (fun x => if x = '/' then ' ' else x)))).filter keepChar) := hc
  unfold stripEnds at h1
  rw [List.mem_reverse] at h1
  have h2 := (List.dropWhile_sublist _).mem h1
  rw [List.mem_reverse] at h2
  have h3 := (List.dropWhile_sublist _).mem h2
  exact List.of_mem_filter h3

theorem no_slash_in_secure_filename (f : String) :
    '/' ∉ (secure_filename f).toList := by
  intro h
  have h2 := secure_filename_keepChar f '/' h
  simp [keepChar] at h2

theorem allowed_file_stored (token fname : String)
    (h : allowed_file (secure_filename fname) = true) :
    allowed_file (stored_filename token fname) = true := by
  unfold allowed_file at h ⊢
  rw [Bool.and_eq_true] at h ⊢
  obtain ⟨hc, hm⟩ := h
  have hdot : '.' ∈ (secure_filename fname).toList := by simpa using hc
  have hsplit : (stored_filename token fname).toList
      = (token.toList ++ ['_']) ++ (secure_filename fname).toList := by
    rw [stored_filename_toList, List.append_assoc, List.singleton_append]
  constructor
  · have h2 : '.' ∈ (stored_filename token fname).toList := by
      rw [hsplit]
      exact List.mem_append_right _ hdot
    simpa using h2
  · rw [hsplit, afterLastDot_append_right _ _ hdot]
    exact hm

/-! The claims. -/

/-- C1: for every state of the media directory, the JSON listing endpoint
returns exactly those directory entries whose extension, lowercased, is in
the fixed whitelist, sorted lexicographically ascending, each mapped to a
URL by prefixing the static path, and returns nothing else. -/
theorem get_videos_exact (entries : List String) :
    ∃ vs : List String,
      get_videos (some entries) = (vs.map video_url, 200) ∧
      List.Sorted (· ≤ ·) vs ∧
      vs.Perm (entries.filter (fun f => allowed_file f)) ∧
      ∀ f : String, f ∈ vs ↔ f ∈ entries ∧ hasAllowedExtension f := by
  refine ⟨video_files entries, rfl, List.sorted_insertionSort _ _,
    List.perm_insertionSort _ _, ?_⟩
  intro f
  rw [mem_video_files, allowed_file_iff]

/-- C2: for every accepted upload the stored filename is the fresh random
token, an underscore, and the sanitised original filename, and stored
names built from distinct underscore-free tokens are distinct even for
identical source filenames. -/
theorem upload_stored_name (fname token : String) (dir : Option (List String))
    (h1 : fname ≠ "") (h2 : allowed_file fname = true) :
    (upload_file ⟨some fname⟩ token none dir).2
      = some (stored_filename token fname :: dir.getD []) ∧
    stored_filename token fname = token ++ "_" ++ secure_filename fname ∧
    ∀ t₁ t₂ f₁ f₂ : String, '_' ∉ t₁.toList → '_' ∉ t₂.toList → t₁ ≠ t₂ →
      stored_filename t₁ f₁ ≠ stored_filename t₂ f₂ := by
  refine ⟨by simp [upload_file, h1, h2], rfl, ?_⟩
  intro t₁ t₂ f₁ f₂ hu₁ hu₂ hne heq
  apply hne
  have hd := congrArg String.toList heq
  rw [stored_filename_toList, stored_filename_toList] at hd
  have e₁ : (t₁.toList ++ '_' :: (secure_filename f₁).toList).takeWhile
      (fun c => decide (c ≠ '_')) = t₁.toList :=
    takeWhile_append_true _ _ '_'
      (fun a ha => by
        simp only [decide_eq_true_eq]
        intro hae
        exact hu₁ (hae ▸ ha)) (by simp)
  have e₂ : (t₂.toList ++ '_' :: (secure_filename f₂).toList).takeWhile
      (fun c => decide (c ≠ '_')) = t₂.toList :=
    takeWhile_append_true _ _ '_'
      (fun a ha => by
        simp only [decide_eq_true_eq]
        intro hae
        exact hu₂ (hae ▸ ha)) (by simp)
  have e₃ : (t₁.toList ++ '_' :: (secure_filename f₁).toList).takeWhile
        (fun c => decide (c ≠ '_'))
      = (t₂.toList ++ '_' :: (secure_filename f₂).toList).takeWhile
        (fun c => decide (c ≠ '_')) := by
    rw [hd]
  rw [e₁, e₂] at e₃
  exact String.toList_inj.mp e₃

theorem upload_stored_name_witness :
    (upload_file ⟨some ("clip.mp4")⟩ ("a1b2") none (some [])).2
      = some [stored_filename ("a1b2") ("clip.mp4")] ∧
    stored_filename ("a1b2") ("clip.mp4") = "a1b2" ++ "_" ++ secure_filename ("clip.mp4") ∧
    stored_filename ("a1b2") ("clip.mp4") ≠ stored_filename ("c3d4") ("clip.mp4") :=
  ⟨(upload_stored_name ("clip.mp4") ("a1b2") (some []) (by decide) (by decide)).1,
   (upload_stored_name ("clip.mp4") ("a1b2") (some []) (by decide) (by decide)).2.1,
   (upload_stored_name ("clip.mp4") ("a1b2") (some []) (by decide) (by decide)).2.2
     ("a1b2") ("c3d4") ("clip.mp4") ("clip.mp4") (by decide) (by decide) (by decide)⟩

/-- C3: an upload whose extension is not whitelisted yields success false
and leaves the media directory unchanged. -/
theorem upload_rejects_bad_extension (fname token : String) (w : Option String)
    (dir : Option (List String))
    (h1 : fname ≠ "") (h2 : allowed_file fname = false) :
    (upload_file ⟨some fname⟩ token w dir).1.success = false ∧
    (upload_file ⟨some fname⟩ token w dir).2 = dir := by
  constructor <;> simp [upload_file, h1, h2]

theorem upload_rejects_bad_extension_witness :
    (upload_file ⟨some ("malware.exe")⟩ ("a1b2") none (some [])).1.success = false ∧
    (upload_file ⟨some ("malware.exe")⟩ ("a1b2") none (some [])).2 = some [] :=
  upload_rejects_bad_extension ("malware.exe") ("a1b2") none (some [])
    (by decide) (by decide)

/-- C4: with the media directory missing, the page route answers HTTP 500
with the fixed error body while the JSON route answers an empty video list
with HTTP 200. -/
theorem missing_dir_divergence :
    index none
      = (PageResult.error ("Error: Video directory not found. Please create it and add videos."),
         500) ∧
    get_videos none = ([], 200) :=
  ⟨rfl, rfl⟩

/-- C5: for every accepted upload, even with path-traversal sequences in
the client filename, the write path is the upload directory followed by a
single well-formed entry name: never a path outside it. -/
theorem upload_path_inside (fname token : String)
    (_h2 : allowed_file fname = true) (htok : '/' ∉ token.toList) :
    ∃ name : String,
      upload_path token fname = UPLOAD_FOLDER ++ "/" ++ name ∧
      name = stored_filename token fname ∧
      name ≠ "" ∧ '/' ∉ name.toList ∧ name ≠ "." ∧ name ≠ ".." := by
  have hmem : '_' ∈ (stored_filename token fname).toList := by
    rw [stored_filename_toList]
    exact List.mem_append_right _ (List.mem_cons_self _ _)
  have hslash : '/' ∉ (stored_filename token fname).toList := by
    rw [stored_filename_toList]
    intro hm
    rcases List.mem_append.mp hm with hm1 | hm2
    · exact htok hm1
    · rcases List.mem_cons.mp hm2 with hm3 | hm4
      · cases hm3
      · exact no_slash_in_secure_filename fname hm4
  refine ⟨stored_filename token fname, ?_, rfl, ?_, hslash, ?_, ?_⟩
  · unfold upload_path os_path_join
    rw [if_neg (fun h => hslash (head?_mem h)), if_neg (by decide)]
  · intro h
    rw [h] at hmem
    revert hmem
    decide
  · intro h
    rw [h] at hmem
    revert hmem
    decide
  · intro h
    rw [h] at hmem
    revert hmem
    decide

theorem upload_path_inside_witness :
    ∃ name : String,
      upload_path ("a1b2") ("../../etc/passwd.mp4") = UPLOAD_FOLDER ++ "/" ++ name ∧
      name = stored_filename ("a1b2") ("../../etc/passwd.mp4") ∧
      name ≠ "" ∧ '/' ∉ name.toList ∧ name ≠ "." ∧ name ≠ ".." :=
  upload_path_inside ("../../etc/passwd.mp4") ("a1b2") (by decide) (by decide)

/-- C6: a POST with no file field, and one with an empty filename, both
yield the JSON body success false with the fixed message and HTTP 200. -/
theorem upload_no_file_selected (token : String) (w : Option String)
    (dir : Option (List String)) :
    upload_file ⟨none⟩ token w dir = (⟨false, "No file selected", 200⟩, dir) ∧
    upload_file ⟨some ("")⟩ token w dir = (⟨false, "No file selected", 200⟩, dir) :=
  ⟨rfl, rfl⟩

/-- C7: an accepted upload answers success true with HTTP 200 when the
write succeeds, and success false with the message prefixed Upload failed
and carrying the cause when the write raises; neither is an HTTP error. -/
theorem upload_write_outcome (fname token e : String) (dir : Option (List String))
    (h1 : fname ≠ "") (h2 : allowed_file fname = true) :
    (upload_file ⟨some fname⟩ token none dir).1.success = true ∧
    (upload_file ⟨some fname⟩ token none dir).1.status = 200 ∧
    (upload_file ⟨some fname⟩ token (some e) dir).1
      = ⟨false, "Upload failed: " ++ e, 200⟩ := by
  refine ⟨?_, ?_, ?_⟩ <;> simp [upload_file, h1, h2]

theorem upload_write_outcome_witness :
    (upload_file ⟨some ("clip.mp4")⟩ ("a1b2") none (some [])).1.success = true ∧
    (upload_file ⟨some ("clip.mp4")⟩ ("a1b2") none (some [])).1.status = 200 ∧
    (upload_file ⟨some ("clip.mp4")⟩ ("a1b2") (some ("disk full")) (some [])).1
      = ⟨false, "Upload failed: " ++ "disk full", 200⟩ :=
  upload_write_outcome ("clip.mp4") ("a1b2") ("disk full") (some [])
    (by decide) (by decide)

/-- C8 counterexample: the upload of a file named .mp4 is accepted and
stored, yet the stored name (the dotless token, an underscore, and the
sanitised name mp4, whose leading dot the sanitiser stripped) fails the
extension check, so the subsequent listing of the very directory the file
was saved into omits it. -/
theorem upload_accepted_not_listed :
    (upload_file ⟨some (".mp4")⟩ ("550e8400-e29b-41d4-a716-446655440000") none
      (some [])).1.success = true ∧
    (upload_file ⟨some (".mp4")⟩ ("550e8400-e29b-41d4-a716-446655440000") none
      (some [])).2
      = some [stored_filename ("550e8400-e29b-41d4-a716-446655440000") (".mp4")] ∧
    (get_videos ((upload_file ⟨some (".mp4")⟩ ("550e8400-e29b-41d4-a716-446655440000") none
      (some [])).2)).1 = [] := by
  refine ⟨by decide, by decide, by decide⟩

/-- C8 amended: every accepted upload is saved into the very directory the
listing routes scan, and it appears in the subsequent listing provided the
sanitised original filename still carries a whitelisted extension (which
holds for ordinary names such as clip.mp4 but fails for names such as
.mp4, whose extension dot the sanitiser strips). -/
theorem upload_then_listed (fname token : String) (dir : Option (List String))
    (h1 : fname ≠ "") (h2 : allowed_file fname = true)
    (h3 : allowed_file (secure_filename fname) = true) :
    VIDEO_DIR = UPLOAD_FOLDER ∧
    (upload_file ⟨some fname⟩ token none dir).1.success = true ∧
    video_url (stored_filename token fname)
      ∈ (get_videos ((upload_file ⟨some fname⟩ token none dir).2)).1 := by
  have hstep : upload_file ⟨some fname⟩ token none dir
      = (⟨true, "File uploaded successfully!", 200⟩,
         some (stored_filename token fname :: dir.getD [])) := by
    simp [upload_file, h1, h2]
  refine ⟨rfl, by rw [hstep], ?_⟩
  rw [hstep]
  show video_url (stored_filename token fname)
      ∈ (video_files (stored_filename token fname :: dir.getD [])).map video_url
  apply List.mem_map_of_mem
  rw [mem_video_files]
  exact ⟨List.mem_cons_self _ _, allowed_file_stored token fname h3⟩

theorem upload_then_listed_witness :
    VIDEO_DIR = UPLOAD_FOLDER ∧
    (upload_file ⟨some ("clip.mp4")⟩ ("a1b2") none (some [])).1.success = true ∧
    video_url (stored_filename ("a1b2") ("clip.mp4"))
      ∈ (get_videos ((upload_file ⟨some ("clip.mp4")⟩ ("a1b2") none (some [])).2)).1 :=
  upload_then_listed ("clip.mp4") ("a1b2") (some [])
    (by decide) (by decide) (by decide)

/-- C9: a request body above the 100 MiB cap is answered by the HTTP layer
with the oversized-payload error, leaving the state untouched and never
reaching the upload handler. -/
theorem oversized_rejected (contentLength : Nat) (req : UploadRequest) (token : String)
    (w : Option String) (dir : Option (List String))
    (h : MAX_CONTENT_LENGTH < contentLength) :
    handle_upload_request contentLength req token w dir
      = (UploadHttpResult.tooLarge, dir) := by
  simp [handle_upload_request, h]

theorem oversized_rejected_witness :
    handle_upload_request 104857601 ⟨some ("clip.mp4")⟩ ("a1b2") none (some [])
      = (UploadHttpResult.tooLarge, some []) :=
  oversized_rejected 104857601 ⟨some ("clip.mp4")⟩ ("a1b2") none (some []) (by decide)

/-- C10: a filename without any dot is never allowed: the extension check
answers false, a directory entry with such a name is excluded from every
listing, and an upload with such a name is rejected as an invalid file
type with the state unchanged. -/
theorem no_dot_never_allowed (f token : String) (w : Option String)
    (dir : Option (List String)) (entries : List String)
    (h1 : '.' ∉ f.toList) (h2 : f ≠ "") :
    allowed_file f = false ∧
    f ∉ video_files entries ∧
    video_url f ∉ (get_videos (some entries)).1 ∧
    (upload_file ⟨some f⟩ token w dir).1.success = false ∧
    (upload_file ⟨some f⟩ token w dir).1.message
      = "Invalid file type. Please upload videos (mp4, avi, mov, etc.) or images (jpg, png, etc.)" ∧
    (upload_file ⟨some f⟩ token w dir).2 = dir := by
  have hc : f.toList.contains '.' = false := by simpa using h1
  have hall : allowed_file f = false := by
    unfold allowed_file
    rw [hc, Bool.false_and]
  have hnv : f ∉ video_files entries := by
    rw [mem_video_files]
    rintro ⟨-, htrue⟩
    rw [hall] at htrue
    cases htrue
  refine ⟨hall, hnv, ?_, ?_, ?_, ?_⟩
  · show video_url f ∉ (video_files entries).map video_url
    intro hm
    obtain ⟨g, hg, hge⟩ := List.mem_map.mp hm
    have hgf : g = f := by
      have h3 := congrArg String.data hge
      unfold video_url at h3
      rw [String.data_append, String.data_append] at h3
      exact String.toList_inj.mp (List.append_cancel_left h3)
    exact hnv (hgf ▸ hg)
  · simp [upload_file, h2, hall]
  · simp [upload_file, h2, hall]
  · simp [upload_file, h2, hall]

theorem no_dot_never_allowed_witness :
    allowed_file ("mp4") = false ∧
    ("mp4" : String) ∉ video_files ["mp4"] ∧
    video_url ("mp4") ∉ (get_videos (some ["mp4"])).1 ∧
    (upload_file ⟨some ("mp4")⟩ ("a1b2") none (some [])).1.success = false ∧
    (upload_file ⟨some ("mp4")⟩ ("a1b2") none (some [])).1.message
      = "Invalid file type. Please upload videos (mp4, avi, mov, etc.) or images (jpg, png, etc.)" ∧
    (upload_file ⟨some ("mp4")⟩ ("a1b2") none (some [])).2 = some [] :=
  no_dot_never_allowed ("mp4") ("a1b2") none (some []) ["mp4"]
    (by decide) (by decide)

